import Mathlib

/-!
Shallow embedding of `src/MongoDBStore.ts` from the
`iroomitapp/rate-limit-mongodb` package: a MongoDB-backed store for the
`express-rate-limit` middleware.

The embedding has three parts:

1. A model of a MongoDB collection as a list of `MongoDBStoreEntry`
   documents, with the driver primitives the store uses (`findOne`,
   `findOneAndUpdate` with upsert and return-after semantics,
   `deleteOne`, `deleteMany`), and the store's pure data operations
   (`increment`, `decrement`, `get`, `resetKey`, `resetAll`,
   `incrementOrDecrement`) written as explicit state-passing functions
   over the collection contents.  `Date.now()` is threaded in as a `Nat`
   millisecond timestamp.

2. A model of the lazy single-flight collection-acquisition state machine
   of `getCollection`: the `collectionState` field
   (`uninitialized | initializing | initialized`), the queue
   `resolveOrRejectOnCollectionCreation` of pending callers, the arrival
   of a caller (`getCollectionArrive`), and the completion of the
   acquisition sequence (`runAcquisition`), which covers the `try`/`catch`
   block of `getCollection` (lines 167-195 of the source).

3. A model of `createCollection`'s connection-option computation: the
   derivation of the default `authSource` from the URI and the JS-spread
   merge with caller-supplied `connectionOptions`.
-/

namespace RateLimitMongo

/-- A persisted document, `MongoDBStoreEntry` in the source: the rate-limit
key is stored directly in `_id`, `counter` is the hit count (an integer:
decrements may drive it negative), `expirationDate` is a millisecond
timestamp. -/
structure MongoDBStoreEntry where
  _id : String
  counter : Int
  expirationDate : Nat
deriving DecidableEq, Repr

/-- A MongoDB collection, modelled as the list of its documents. -/
abbrev Collection := List MongoDBStoreEntry

/-- The update document built by `incrementOrDecrement` (source lines
135-145): always `$inc: {counter: byValue}`, and exactly one of
`$set: {expirationDate: ...}` or `$setOnInsert: {expirationDate: ...}`. -/
structure Modifier where
  incCounter : Int
  setExpirationDate : Option Nat
  setOnInsertExpirationDate : Option Nat
deriving DecidableEq, Repr

/-- Applying the modifier to an existing document: `$inc` adds to
`counter`; `$set` overwrites `expirationDate`; `$setOnInsert` is ignored
on an update. -/
def applyUpdate (e : MongoDBStoreEntry) (m : Modifier) : MongoDBStoreEntry :=
  { e with
    counter := e.counter + m.incCounter,
    expirationDate :=
      match m.setExpirationDate with
      | some d => d
      | none => e.expirationDate }

/-- The document created by an upsert when no document matches: `$inc` on
a missing field starts from 0, and both `$set` and `$setOnInsert` apply on
insert.  The store always supplies exactly one of the two expiration
fields, so the fallback 0 for "neither given" is never reached. -/
def insertFromModifier (id : String) (m : Modifier) : MongoDBStoreEntry :=
  { _id := id,
    counter := m.incCounter,
    expirationDate :=
      match m.setExpirationDate with
      | some d => d
      | none => m.setOnInsertExpirationDate.getD 0 }

/-- Model of `collection.findOne({_id: id})`: the first document with the given id. -/
def findOne (coll : Collection) (id : String) : Option MongoDBStoreEntry :=
  coll.find? (fun e => e._id == id)

/-- Apply the modifier to the first document matching the id, leaving the
rest of the collection unchanged. -/
def updateFirst (id : String) (m : Modifier) : Collection → Collection
  | [] => []
  | e :: rest =>
      if e._id == id then applyUpdate e m :: rest
      else e :: updateFirst id m rest

/-- Model of `collection.findOneAndUpdate({_id: id}, modifier, {upsert: true,
returnDocument: 'after'})`: updates the matching document (or inserts one
if absent) and returns the post-image together with the new collection
contents. -/
def findOneAndUpdate (coll : Collection) (id : String) (m : Modifier) :
    MongoDBStoreEntry × Collection :=
  match findOne coll id with
  | some e => (applyUpdate e m, updateFirst id m coll)
  | none => (insertFromModifier id m, coll ++ [insertFromModifier id m])

/-- Model of `collection.deleteOne({_id: id})`: removes the first matching
document, a no-op when none matches. -/
def deleteOne (id : String) : Collection → Collection
  | [] => []
  | e :: rest => if e._id == id then rest else e :: deleteOne id rest

/-- Model of `collection.deleteMany(filter)`: removes every document matched by the
filter. -/
def deleteMany (coll : Collection) (filterMatches : MongoDBStoreEntry → Bool) :
    Collection :=
  coll.filter (fun e => !(filterMatches e))

/-- The empty query document `{}` matches every document. -/
def emptyFilter : MongoDBStoreEntry → Bool := fun _ => true

/-- The store state relevant to the data operations: `windowMs` (set by
`init`), the id prefix (`options.prefix ?? "mongodb_rl_"`), and the
`resetExpireDateOnChange` option as passed (absent means `undefined`,
which is falsy at its use site). -/
structure MongoDBStore where
  windowMs : Nat
  prefixStr : String
  resetExpireDateOnChange : Option Bool
deriving DecidableEq, Repr

/-- Default prefix applied by the constructor when `options.prefix` is
absent. -/
def defaultPrefix : String := "mongodb_rl_"

/-- The method `prefixKey(key)` (source lines 89-91): plain string concatenation. -/
def MongoDBStore.prefixKey (st : MongoDBStore) (key : String) : String :=
  st.prefixStr ++ key

/-- The method `incrementOrDecrement(key, byValue)` (source lines 132-151): builds
the modifier — `$inc` by `byValue`, and `$set` (when
`resetExpireDateOnChange` is truthy) or `$setOnInsert` (otherwise) of the
freshly computed `now + windowMs` — then issues the atomic upsert and
returns the post-image. -/
def MongoDBStore.incrementOrDecrement (st : MongoDBStore) (key : String)
    (byValue : Int) (now : Nat) (coll : Collection) :
    MongoDBStoreEntry × Collection :=
  let newExpiry := now + st.windowMs
  let modifier : Modifier :=
    if st.resetExpireDateOnChange.getD false then
      { incCounter := byValue, setExpirationDate := some newExpiry,
        setOnInsertExpirationDate := none }
    else
      { incCounter := byValue, setExpirationDate := none,
        setOnInsertExpirationDate := some newExpiry }
  findOneAndUpdate coll (st.prefixKey key) modifier

/-- The shape returned by `increment` (and by `get`): the
`IncrementResponse` / `ClientRateLimitInfo` of `express-rate-limit`. -/
structure IncrementResponse where
  totalHits : Int
  resetTime : Nat
deriving DecidableEq, Repr

/-- The method `increment(key)` (source lines 93-101): delta +1, returning the
post-image's counter and expiration. -/
def MongoDBStore.increment (st : MongoDBStore) (key : String) (now : Nat)
    (coll : Collection) : IncrementResponse × Collection :=
  let r := st.incrementOrDecrement key 1 now coll
  ({ totalHits := r.1.counter, resetTime := r.1.expirationDate }, r.2)

/-- The method `decrement(key)` (source lines 103-105): delta −1, result discarded. -/
def MongoDBStore.decrement (st : MongoDBStore) (key : String) (now : Nat)
    (coll : Collection) : Collection :=
  (st.incrementOrDecrement key (-1) now coll).2

/-- The method `get(key)` (source lines 107-118): point lookup by the prefixed id;
`undefined` (here `none`) when absent.  The collection is returned
unchanged: the operation only reads. -/
def MongoDBStore.get (st : MongoDBStore) (key : String) (coll : Collection) :
    Option IncrementResponse × Collection :=
  (match findOne coll (st.prefixKey key) with
   | some r => some { totalHits := r.counter, resetTime := r.expirationDate }
   | none => none,
   coll)

/-- The method `resetKey(key)` (source lines 120-124): delete-one by prefixed id. -/
def MongoDBStore.resetKey (st : MongoDBStore) (key : String)
    (coll : Collection) : Collection :=
  deleteOne (st.prefixKey key) coll

/-- The method `resetAll()` (source lines 126-130): `deleteMany({})` — the empty
filter, not a prefix filter. -/
def MongoDBStore.resetAll (_st : MongoDBStore) (coll : Collection) :
    Collection :=
  deleteMany coll emptyFilter

/-! ## The `getCollection` single-flight state machine

`getCollection` (source lines 153-197) is asynchronous; its state lives in
the fields `collectionState`, `collection`, and
`resolveOrRejectOnCollectionCreation`.  We embed it as a transition system:
`getCollectionArrive` is the synchronous prefix run by each caller up to its
first suspension, and `runAcquisition` is the `try`/`catch` completion run
by the sole initiator once `createCollection` (and possibly `createIndex`)
settle.  Handles and errors are abstract types `H` and `E`; pending callers
are tracked by `Nat` identifiers standing for the stored resolve/reject
pairs. -/

/-- The field `collectionState` (source line 72). -/
inductive CollectionState where
  | uninitialized
  | initializing
  | initialized
deriving DecidableEq, Repr

/-- The connection-manager state: `collectionState`, the cached
`collection` field, and the queue `resolveOrRejectOnCollectionCreation` of
pending callers. -/
structure ConnState (H : Type) where
  collectionState : CollectionState
  collection : Option H
  pending : List Nat
deriving DecidableEq, Repr

/-- What happens to a caller of `getCollection` synchronously:
it is resolved immediately with the cached `this.collection` (the source
casts without checking, hence `Option H`), or queued, or it becomes the
sole initiator of the acquisition sequence. -/
inductive GetOutcome (H : Type) where
  | resolvedNow (h : Option H)
  | queued
  | initiated
deriving DecidableEq, Repr

/-- Returns `true` exactly on the `initiated` outcome. -/
def GetOutcome.isInitiated {H : Type} : GetOutcome H → Bool
  | .initiated => true
  | _ => false

/-- The constructor (source lines 74-83): with a pre-built collection the
state starts `initialized` holding it; otherwise everything is at its field
initializer (`uninitialized`, no collection, empty queue). -/
def mkConnState {H : Type} (collectionOpt : Option H) : ConnState H :=
  match collectionOpt with
  | some col => ⟨.initialized, some col, []⟩
  | none => ⟨.uninitialized, none, []⟩

/-- A caller `c` entering `getCollection` (source lines 155-165):
`initialized` resolves immediately with the cached handle and changes
nothing; `initializing` pushes the caller's resolve/reject pair onto the
queue; `uninitialized` flips the state to `initializing` and makes the
caller the initiator. -/
def getCollectionArrive {H : Type} (c : Nat) (s : ConnState H) :
    GetOutcome H × ConnState H :=
  match s.collectionState with
  | .initialized => (.resolvedNow s.collection, s)
  | .initializing => (.queued, { s with pending := s.pending ++ [c] })
  | .uninitialized => (.initiated, { s with collectionState := .initializing })

/-- The outcome of the whole `try` block for the initiator and each queued
caller. -/
structure AcquisitionResult (H E : Type) where
  state : ConnState H
  initiatorResult : Except E H
  queuedResults : List (Nat × Except E H)
deriving Repr

/-- The initiator's `try`/`catch` (source lines 167-195), with the results
of the two awaited steps supplied as `Except` values: `createRes` for
`this.createCollection()` and `indexRes` for `createIndex` (consulted only
when `createTtlIndex` is undefined or truthy).  On success the collection
is cached, the state becomes `initialized`, and the initiator and every
queued caller resolve with the same handle; on failure the state resets to
`uninitialized` and the initiator and every queued caller reject with the
same error.  Either way the queue is cleared (source line 195).  Note the
`collection` field is assigned before `createIndex` runs, so an index
failure leaves it cached even though the state resets. -/
def runAcquisition {H E : Type} (createTtlIndex : Option Bool)
    (s : ConnState H) (createRes : Except E H) (indexRes : Except E Unit) :
    AcquisitionResult H E :=
  match createRes with
  | .error e =>
      ⟨{ s with collectionState := .uninitialized, pending := [] },
       .error e, s.pending.map (fun c => (c, .error e))⟩
  | .ok h =>
      match (if createTtlIndex.getD true then indexRes else .ok ()) with
      | .error e =>
          ⟨{ s with collection := some h,
                    collectionState := .uninitialized, pending := [] },
           .error e, s.pending.map (fun c => (c, .error e))⟩
      | .ok _ =>
          ⟨{ s with collection := some h,
                    collectionState := .initialized, pending := [] },
           .ok h, s.pending.map (fun c => (c, .ok h))⟩

/-- A batch of callers entering `getCollection` one after another before
the acquisition settles: each runs its synchronous prefix in order. -/
def arriveAll {H : Type} (cs : List Nat) (s : ConnState H) :
    List (GetOutcome H) × ConnState H :=
  match cs with
  | [] => ([], s)
  | c :: rest =>
      let r := getCollectionArrive c s
      let rs := arriveAll rest r.2
      (r.1 :: rs.1, rs.2)

/-! ## `createCollection` connection options (source lines 199-224) -/

/-- The `auth` sub-object of the driver options: `{username, password}`;
the password is passed through as-is (possibly `undefined`). -/
structure MongoAuth where
  username : String
  password : Option String
deriving DecidableEq, Repr

/-- The fields of `MongoClientOptions` this code computes.  `none` models
an absent key. -/
structure MongoClientOptions where
  authSource : Option String
  auth : Option MongoAuth
deriving DecidableEq, Repr

/-- JavaScript `String.prototype.split` with a single-character separator:
keeps empty pieces and always returns at least one piece. -/
def splitOnChar (c : Char) : List Char → List (List Char)
  | [] => [[]]
  | x :: xs =>
      let r := splitOnChar c xs
      if x == c then [] :: r
      else
        match r with
        | [] => [[x]]
        | y :: ys => (x :: y) :: ys

/-- The expression `uri.split("/").pop()?.split("?")[0]` (source line 201): the text after
the last `/` of the URI, with anything from the first following `?` on
stripped.  `split` never returns an empty array, so `pop` and `[0]` always
produce a string; the `getLastD`/`headD` defaults are never reached. -/
def dbNameOfUri (uri : String) : String :=
  ⟨(splitOnChar '?' ((splitOnChar '/' uri.data).getLastD [])).headD []⟩

/-- The URI-variant constructor options consumed by `createCollection`. -/
structure StoreConnectionOptions where
  uri : Option String
  user : Option String
  password : Option String
  authSource : Option String
  connectionOptions : Option MongoClientOptions
deriving DecidableEq, Repr

/-- Source lines 203-212: start from `{}`, set
`authSource = options.authSource ?? dbName`, and set `auth` only when
`options.user` is truthy (`undefined` and the empty string are falsy). -/
def computedConnectionOptions (opts : StoreConnectionOptions) :
    MongoClientOptions :=
  let dbName := (opts.uri.map dbNameOfUri)
  { authSource :=
      match opts.authSource with
      | some a => some a
      | none => dbName,
    auth :=
      match opts.user with
      | some u =>
          if u.isEmpty then none
          else some { username := u, password := opts.password }
      | none => none }

/-- The JS spread `{...computed, ...userOpts}`: a key present in
`userOpts` overrides the computed one. -/
def mergeConnectionOptions (computed userOpts : MongoClientOptions) :
    MongoClientOptions :=
  { authSource :=
      match userOpts.authSource with
      | some a => some a
      | none => computed.authSource,
    auth :=
      match userOpts.auth with
      | some a => some a
      | none => computed.auth }

/-- Source lines 203-217 end to end: the option bag finally passed to
`MongoClient.connect`. -/
def createCollectionOptions (opts : StoreConnectionOptions) :
    MongoClientOptions :=
  match opts.connectionOptions with
  | none => computedConnectionOptions opts
  | some u => mergeConnectionOptions (computedConnectionOptions opts) u

/-- Default collection name (source line 221). -/
def defaultCollectionName : String := "expressRateRecords"

/-! ## Helper lemmas about the collection model -/

theorem applyUpdate_id (e : MongoDBStoreEntry) (m : Modifier) :
    (applyUpdate e m)._id = e._id := rfl

theorem findOne_cons (x : MongoDBStoreEntry) (rest : Collection) (id : String) :
    findOne (x :: rest) id = if x._id = id then some x else findOne rest id := by
  by_cases hx : x._id = id <;> simp [findOne, List.find?_cons, hx]

theorem findOne_updateFirst (id : String) (m : Modifier) :
    ∀ (coll : Collection) (e : MongoDBStoreEntry), findOne coll id = some e →
      findOne (updateFirst id m coll) id = some (applyUpdate e m) := by
  intro coll
  induction coll with
  | nil => intro e h; simp [findOne] at h
  | cons x rest ih =>
      intro e h
      by_cases hx : x._id = id
      · rw [findOne_cons, if_pos hx] at h
        cases h
        simp [updateFirst, hx, findOne_cons, applyUpdate_id]
      · have hb : (x._id == id) = false := by simpa using hx
        rw [findOne_cons, if_neg hx] at h
        simp only [updateFirst, hb, Bool.false_eq_true, if_false]
        rw [findOne_cons, if_neg hx]
        exact ih e h

theorem mem_updateFirst (id : String) (m : Modifier) :
    ∀ (coll : Collection) (e : MongoDBStoreEntry),
      e ∈ coll → e._id ≠ id → e ∈ updateFirst id m coll := by
  intro coll
  induction coll with
  | nil => intro e h _; simp at h
  | cons x rest ih =>
      intro e h hne
      by_cases hx : x._id = id
      · have hb : (x._id == id) = true := by simpa using hx
        simp only [updateFirst, hb, if_true]
        rcases List.mem_cons.mp h with h1 | h1
        · exact absurd (h1 ▸ hx) hne
        · exact List.mem_cons_of_mem _ h1
      · have hb : (x._id == id) = false := by simpa using hx
        simp only [updateFirst, hb, Bool.false_eq_true, if_false]
        rcases List.mem_cons.mp h with h1 | h1
        · exact h1 ▸ List.mem_cons_self _ _
        · exact List.mem_cons_of_mem _ (ih e h1 hne)

theorem findOne_append_right (coll : Collection) (x : MongoDBStoreEntry)
    (id : String) (h : findOne coll id = none) (hx : x._id = id) :
    findOne (coll ++ [x]) id = some x := by
  simp only [findOne] at h ⊢
  rw [List.find?_append, h]
  simp [hx]

/-! ## Theorems for the claims about the data operations -/

/-- C2: `increment(key)` performs the atomic find-and-update-with-upsert
and returns the post-update record state: on a missing record it creates
one with counter = 1 and expiration `now + windowMs` and returns
`totalHits = 1` with that expiration; on an existing record the counter is
incremented by 1 and the returned values reflect the post-mutation record
(which is exactly the record now stored under the prefixed id), not a
stale pre-image. -/
theorem increment_atomic_upsert_post_image (st : MongoDBStore)
    (coll : Collection) (key : String) (now : Nat)
    (ent : MongoDBStoreEntry) (coll2 : Collection)
    (h : st.incrementOrDecrement key 1 now coll = (ent, coll2)) :
    (st.increment key now coll).1
        = { totalHits := ent.counter, resetTime := ent.expirationDate }
    ∧ (st.increment key now coll).2 = coll2
    ∧ findOne coll2 (st.prefixKey key) = some ent
    ∧ (findOne coll (st.prefixKey key) = none →
        ent.counter = 1 ∧ ent.expirationDate = now + st.windowMs)
    ∧ (∀ e, findOne coll (st.prefixKey key) = some e →
        ent.counter = e.counter + 1) := by
  refine ⟨by simp [MongoDBStore.increment, h], by simp [MongoDBStore.increment, h], ?_, ?_, ?_⟩
  · cases hf : findOne coll (st.prefixKey key) with
    | none =>
        by_cases hflag : st.resetExpireDateOnChange.getD false <;>
          · simp only [MongoDBStore.incrementOrDecrement, findOneAndUpdate, hf,
              hflag, if_true, if_false, Prod.mk.injEq] at h
            obtain ⟨he, hc⟩ := h
            subst he; subst hc
            exact findOne_append_right coll _ _ hf rfl
    | some e =>
        by_cases hflag : st.resetExpireDateOnChange.getD false <;>
          · simp only [MongoDBStore.incrementOrDecrement, findOneAndUpdate, hf,
              hflag, if_true, if_false, Prod.mk.injEq] at h
            obtain ⟨he, hc⟩ := h
            subst he; subst hc
            exact findOne_updateFirst _ _ coll e hf
  · intro hf
    by_cases hflag : st.resetExpireDateOnChange.getD false <;>
      · simp only [MongoDBStore.incrementOrDecrement, findOneAndUpdate, hf,
          hflag, if_true, if_false, Prod.mk.injEq] at h
        obtain ⟨he, _⟩ := h
        subst he
        simp [insertFromModifier]
  · intro e hf
    by_cases hflag : st.resetExpireDateOnChange.getD false <;>
      · simp only [MongoDBStore.incrementOrDecrement, findOneAndUpdate, hf,
          hflag, if_true, if_false, Prod.mk.injEq] at h
        obtain ⟨he, _⟩ := h
        subst he
        simp [applyUpdate]

/-- Witness for C2: a concrete run on the empty collection. -/
theorem increment_atomic_upsert_post_image_witness :
    findOne [] ((MongoDBStore.mk 60000 "mongodb_rl_" none).prefixKey "k") = none
    ∧ ((MongoDBStore.mk 60000 "mongodb_rl_" none).incrementOrDecrement
        "k" 1 1000 []).1.counter = 1 := by
  refine ⟨rfl, ?_⟩
  have t := increment_atomic_upsert_post_image (MongoDBStore.mk 60000 "mongodb_rl_" none)
    [] "k" 1000
    ((MongoDBStore.mk 60000 "mongodb_rl_" none).incrementOrDecrement "k" 1 1000 []).1
    ((MongoDBStore.mk 60000 "mongodb_rl_" none).incrementOrDecrement "k" 1 1000 []).2
    rfl
  exact (t.2.2.2.1 rfl).1

/-- C3: when `resetExpireDateOnChange` is enabled, every mutation (insert
or update, increment or decrement) sets the expiration to the fresh
`now + windowMs`; when disabled or unset, the fresh expiration is applied
only on insert, and an update leaves the stored expiration unchanged. -/
theorem expiration_reset_policy (st : MongoDBStore) (coll : Collection)
    (key : String) (byValue : Int) (now : Nat)
    (ent : MongoDBStoreEntry) (coll2 : Collection)
    (h : st.incrementOrDecrement key byValue now coll = (ent, coll2)) :
    (st.resetExpireDateOnChange = some true →
        ent.expirationDate = now + st.windowMs)
    ∧ (st.resetExpireDateOnChange.getD false = false →
        (findOne coll (st.prefixKey key) = none →
            ent.expirationDate = now + st.windowMs)
        ∧ (∀ e, findOne coll (st.prefixKey key) = some e →
            ent.expirationDate = e.expirationDate)) := by
  constructor
  · intro hflag
    cases hf : findOne coll (st.prefixKey key) with
    | none =>
        simp only [MongoDBStore.incrementOrDecrement, findOneAndUpdate, hf,
          hflag, Option.getD_some, if_true, Prod.mk.injEq] at h
        obtain ⟨he, _⟩ := h
        subst he
        simp [insertFromModifier]
    | some e =>
        simp only [MongoDBStore.incrementOrDecrement, findOneAndUpdate, hf,
          hflag, Option.getD_some, if_true, Prod.mk.injEq] at h
        obtain ⟨he, _⟩ := h
        subst he
        simp [applyUpdate]
  · intro hflag
    constructor
    · intro hf
      simp only [MongoDBStore.incrementOrDecrement, findOneAndUpdate, hf,
        hflag, if_false, Prod.mk.injEq] at h
      obtain ⟨he, _⟩ := h
      subst he
      simp [insertFromModifier]
    · intro e hf
      simp only [MongoDBStore.incrementOrDecrement, findOneAndUpdate, hf,
        hflag, if_false, Prod.mk.injEq] at h
      obtain ⟨he, _⟩ := h
      subst he
      simp [applyUpdate]

/-- Witness for C3: with the flag unset, an update on an existing record
keeps the original expiration. -/
theorem expiration_reset_policy_witness :
    ((MongoDBStore.mk 60000 "mongodb_rl_" none).incrementOrDecrement
        "k" 1 99000 [MongoDBStoreEntry.mk "mongodb_rl_k" 1 61000]).1.expirationDate
      = 61000 := by
  have t := expiration_reset_policy (MongoDBStore.mk 60000 "mongodb_rl_" none)
    [MongoDBStoreEntry.mk "mongodb_rl_k" 1 61000] "k" 1 99000
    ((MongoDBStore.mk 60000 "mongodb_rl_" none).incrementOrDecrement "k" 1 99000
      [MongoDBStoreEntry.mk "mongodb_rl_k" 1 61000]).1
    ((MongoDBStore.mk 60000 "mongodb_rl_" none).incrementOrDecrement "k" 1 99000
      [MongoDBStoreEntry.mk "mongodb_rl_k" 1 61000]).2
    rfl
  exact (t.2 rfl).2 (MongoDBStoreEntry.mk "mongodb_rl_k" 1 61000) (by decide)

/-- C8: `get(key)` is a pure point lookup: the collection is returned
unchanged (no record is created or mutated), the result is `none` exactly
when no record has the prefixed id, and otherwise it reports the stored
counter and expiration. -/
theorem get_point_lookup_no_mutation (st : MongoDBStore) (coll : Collection)
    (key : String) :
    (st.get key coll).2 = coll
    ∧ (findOne coll (st.prefixKey key) = none → (st.get key coll).1 = none)
    ∧ (∀ r, findOne coll (st.prefixKey key) = some r →
        (st.get key coll).1
          = some { totalHits := r.counter, resetTime := r.expirationDate }) := by
  refine ⟨rfl, ?_, ?_⟩
  · intro hf; simp [MongoDBStore.get, hf]
  · intro r hf; simp [MongoDBStore.get, hf]

/-- Witness for C8: a concrete hit and a concrete miss. -/
theorem get_point_lookup_no_mutation_witness :
    ((MongoDBStore.mk 60000 "mongodb_rl_" none).get "k"
        [MongoDBStoreEntry.mk "mongodb_rl_k" 2 61000]).1
      = some (IncrementResponse.mk 2 61000)
    ∧ ((MongoDBStore.mk 60000 "mongodb_rl_" none).get "other" []).1 = none := by
  constructor
  · exact (get_point_lookup_no_mutation (MongoDBStore.mk 60000 "mongodb_rl_" none)
      [MongoDBStoreEntry.mk "mongodb_rl_k" 2 61000] "k").2.2
      (MongoDBStoreEntry.mk "mongodb_rl_k" 2 61000) (by decide)
  · exact (get_point_lookup_no_mutation (MongoDBStore.mk 60000 "mongodb_rl_" none)
      [] "other").2.1 rfl

/-- Counterexample for C5 as stated: distinct prefixes alone do not give
isolation, because the prefixed id is plain concatenation.  A store with
prefix `"a"` incrementing key `"bc"` mutates the record written by a store
with prefix `"ab"` for key `"c"`: both ids are `"abc"`. -/
theorem resetAll_prefix_isolation_counterexample :
    (MongoDBStore.mk 60000 "a" none).prefixStr
        ≠ (MongoDBStore.mk 60000 "ab" none).prefixStr
    ∧ (MongoDBStore.mk 60000 "a" none).prefixKey "bc"
        = (MongoDBStore.mk 60000 "ab" none).prefixKey "c"
    ∧ ((MongoDBStore.mk 60000 "ab" none).get "c"
        [MongoDBStoreEntry.mk "abc" 5 100]).1
        = some (IncrementResponse.mk 5 100)
    ∧ ((MongoDBStore.mk 60000 "ab" none).get "c"
        ((MongoDBStore.mk 60000 "a" none).increment "bc" 0
          [MongoDBStoreEntry.mk "abc" 5 100]).2).1
        = some (IncrementResponse.mk 6 100) := by
  refine ⟨by decide, by decide, by decide, by decide⟩

/-- C5 (amended): `resetAll` is an unfiltered collection-wide delete-many
— every record is removed, whatever prefix its id carries — while
`get`/`increment` touch only the record whose id equals this store's
prefixed key: any record with a different id is left in place unchanged by
`increment`, and `get` reports `none` when no record carries the store's
prefixed id.  (Isolation is by prefixed id, not by prefix alone: see the
counterexample.) -/
theorem resetAll_collection_wide_id_isolation (st : MongoDBStore)
    (coll : Collection) (key : String) (now : Nat) (e : MongoDBStoreEntry) :
    st.resetAll coll = []
    ∧ (e ∈ coll → e ∉ st.resetAll coll)
    ∧ (e ∈ coll → e._id ≠ st.prefixKey key →
        e ∈ (st.increment key now coll).2)
    ∧ ((∀ x ∈ coll, x._id ≠ st.prefixKey key) → (st.get key coll).1 = none) := by
  have hall : st.resetAll coll = [] := by
    simp [MongoDBStore.resetAll, deleteMany, emptyFilter]
  refine ⟨hall, ?_, ?_, ?_⟩
  · intro _; rw [hall]; simp
  · intro hmem hne
    simp only [MongoDBStore.increment, MongoDBStore.incrementOrDecrement,
      findOneAndUpdate]
    cases hf : findOne coll (st.prefixKey key) with
    | none =>
        by_cases hflag : st.resetExpireDateOnChange.getD false <;>
          simp [hf, hflag, List.mem_append, hmem]
    | some x =>
        by_cases hflag : st.resetExpireDateOnChange.getD false <;>
          simp [hf, hflag, mem_updateFirst _ _ coll e hmem hne]
  · intro hnone
    have hf : findOne coll (st.prefixKey key) = none := by
      simp only [findOne, List.find?_eq_none]
      intro x hx
      simpa using hnone x hx
    simp [MongoDBStore.get, hf]

/-- Witness for C5 (amended): concrete two-prefix collection. -/
theorem resetAll_collection_wide_id_isolation_witness :
    (MongoDBStoreEntry.mk "other_k" 7 50 ∈
        ([MongoDBStoreEntry.mk "other_k" 7 50] : Collection))
    ∧ MongoDBStoreEntry.mk "other_k" 7 50 ∈
        ((MongoDBStore.mk 60000 "mongodb_rl_" none).increment "k" 1000
          [MongoDBStoreEntry.mk "other_k" 7 50]).2 := by
  refine ⟨by decide, ?_⟩
  exact (resetAll_collection_wide_id_isolation (MongoDBStore.mk 60000 "mongodb_rl_" none)
      [MongoDBStoreEntry.mk "other_k" 7 50] "k" 1000
      (MongoDBStoreEntry.mk "other_k" 7 50)).2.2.1 (by decide) (by decide)

/-! ## Theorems for the claims about `getCollection` -/

theorem arriveAll_initializing (H : Type) :
    ∀ (cs : List Nat) (s : ConnState H),
      s.collectionState = CollectionState.initializing →
      arriveAll cs s
        = (cs.map (fun _ => GetOutcome.queued),
           ⟨CollectionState.initializing, s.collection, s.pending ++ cs⟩) := by
  intro cs
  induction cs with
  | nil =>
      intro s hs
      obtain ⟨cst, col, pend⟩ := s
      cases hs
      simp [arriveAll]
  | cons c rest ih =>
      intro s hs
      obtain ⟨cst, col, pend⟩ := s
      cases hs
      simp only [arriveAll, getCollectionArrive]
      rw [ih ⟨CollectionState.initializing, col, pend ++ [c]⟩ rfl]
      simp

/-- C1: with no pre-built collection, the first `getCollection` caller in
state `uninitialized` becomes the sole initiator (flipping the state to
`initializing`), every caller arriving while `initializing` is queued
rather than starting a second acquisition — the outcome list contains
exactly one `initiated` — and when the acquisition succeeds the initiator
and every queued caller resolve with the same collection handle. -/
theorem getCollection_single_flight (H E : Type) (h : H) (c : Nat)
    (rest : List Nat) (tti : Option Bool) (outs : List (GetOutcome H))
    (s1 : ConnState H)
    (harr : arriveAll (c :: rest) (mkConnState none : ConnState H) = (outs, s1)) :
    outs = GetOutcome.initiated :: rest.map (fun _ => GetOutcome.queued)
    ∧ outs.countP (fun o => o.isInitiated) = 1
    ∧ s1 = ⟨CollectionState.initializing, none, rest⟩
    ∧ (runAcquisition tti s1 (Except.ok h : Except E H) (Except.ok ())).initiatorResult
        = Except.ok h
    ∧ (runAcquisition tti s1 (Except.ok h : Except E H) (Except.ok ())).queuedResults
        = rest.map (fun c2 => (c2, Except.ok h)) := by
  have hA : arriveAll (c :: rest) (mkConnState none : ConnState H)
      = (GetOutcome.initiated :: rest.map (fun _ => GetOutcome.queued),
         ⟨CollectionState.initializing, none, rest⟩) := by
    simp only [arriveAll, mkConnState, getCollectionArrive]
    rw [arriveAll_initializing H rest ⟨CollectionState.initializing, none, []⟩ rfl]
    simp
  rw [hA] at harr
  obtain ⟨houts, hs1⟩ := Prod.mk.injEq .. ▸ harr
  subst houts
  subst hs1
  refine ⟨rfl, ?_, rfl, ?_, ?_⟩
  · simp [List.countP_cons, List.countP_map, Function.comp, GetOutcome.isInitiated]
  · simp [runAcquisition, ite_self]
  · simp [runAcquisition, ite_self]

/-- Witness for C1: three concurrent callers, one initiator, all resolve
with the same handle. -/
theorem getCollection_single_flight_witness :
    arriveAll [10, 11, 12] (mkConnState none : ConnState Nat)
        = ([GetOutcome.initiated, GetOutcome.queued, GetOutcome.queued],
           ⟨CollectionState.initializing, none, [11, 12]⟩)
    ∧ (runAcquisition none (⟨CollectionState.initializing, none, [11, 12]⟩ : ConnState Nat)
        (Except.ok 42 : Except Nat Nat) (Except.ok ())).queuedResults
        = [(11, Except.ok 42), (12, Except.ok 42)] := by
  have t := getCollection_single_flight Nat Nat 42 10 [11, 12] none
    (arriveAll [10, 11, 12] (mkConnState none : ConnState Nat)).1
    (arriveAll [10, 11, 12] (mkConnState none : ConnState Nat)).2 rfl
  refine ⟨?_, ?_⟩
  · rw [Prod.ext_iff]
    exact ⟨t.1, t.2.2.1⟩
  · have hq := t.2.2.2.2
    rw [t.2.2.1] at hq
    exact hq

/-- C4: if the acquisition sequence fails — whether `createCollection`
itself rejects, or `createIndex` rejects (consulted because
`createTtlIndex` is not disabled) — the initiator and every queued caller
are rejected with that same error, the state resets to `uninitialized`
with an empty queue, and a subsequent `getCollection` call becomes a fresh
initiator (no retry happens inside the component: the failure transition
produces no further acquisition by itself). -/
theorem acquisition_failure_resets_state (H E : Type) (tti : Option Bool)
    (s : ConnState H) (e : E) (c : Nat) (idx : Except E Unit) (h2 : H)
    (_hs : s.collectionState = CollectionState.initializing) :
    ((runAcquisition tti s (Except.error e) idx).state.collectionState
        = CollectionState.uninitialized
      ∧ (runAcquisition tti s (Except.error e) idx).state.pending = []
      ∧ (runAcquisition tti s (Except.error e) idx).initiatorResult
          = Except.error e
      ∧ (runAcquisition tti s (Except.error e) idx).queuedResults
          = s.pending.map (fun c2 => (c2, Except.error e))
      ∧ (getCollectionArrive c (runAcquisition tti s (Except.error e) idx).state).1
          = GetOutcome.initiated)
    ∧ (tti.getD true = true →
        (runAcquisition tti s (Except.ok h2) (Except.error e)).state.collectionState
            = CollectionState.uninitialized
        ∧ (runAcquisition tti s (Except.ok h2) (Except.error e)).state.pending = []
        ∧ (runAcquisition tti s (Except.ok h2) (Except.error e)).initiatorResult
            = Except.error e
        ∧ (runAcquisition tti s (Except.ok h2) (Except.error e)).queuedResults
            = s.pending.map (fun c2 => (c2, Except.error e))
        ∧ (getCollectionArrive c (runAcquisition tti s (Except.ok h2)
              (Except.error e)).state).1 = GetOutcome.initiated) := by
  constructor
  · exact ⟨rfl, rfl, rfl, rfl, rfl⟩
  · intro hT
    refine ⟨?_, ?_, ?_, ?_, ?_⟩ <;> simp [runAcquisition, getCollectionArrive, hT]

/-- Witness for C4: a concrete failed acquisition with two queued
callers. -/
theorem acquisition_failure_resets_state_witness :
    (runAcquisition none (⟨CollectionState.initializing, none, [1, 2]⟩ : ConnState Nat)
        (Except.error (0 : Nat)) (Except.ok ())).queuedResults
      = [(1, Except.error 0), (2, Except.error 0)]
    ∧ (runAcquisition none (⟨CollectionState.initializing, none, [1, 2]⟩ : ConnState Nat)
        (Except.ok 9) (Except.error (0 : Nat))).state.collectionState
      = CollectionState.uninitialized := by
  have t := acquisition_failure_resets_state Nat Nat none
    ⟨CollectionState.initializing, none, [1, 2]⟩ 0 7 (Except.ok ()) 9 rfl
  exact ⟨t.1.2.2.2.1.trans rfl, (t.2 rfl).1⟩

/-- C6: a store constructed with a pre-built collection handle starts
`initialized`, every `getCollection` call resolves immediately with the
supplied handle leaving the state untouched, and no caller ever becomes an
initiator — so the acquisition sequence (`createCollection`,
`MongoClient.connect`) never runs over the store's whole lifetime. -/
theorem prebuilt_collection_never_connects (H : Type) (h : H) (cs : List Nat) :
    (mkConnState (some h) : ConnState H).collectionState
        = CollectionState.initialized
    ∧ arriveAll cs (mkConnState (some h) : ConnState H)
        = (cs.map (fun _ => GetOutcome.resolvedNow (some h)),
           mkConnState (some h))
    ∧ (arriveAll cs (mkConnState (some h) : ConnState H)).1.countP
        (fun o => o.isInitiated) = 0 := by
  have key : ∀ cs2 : List Nat,
      arriveAll cs2 (mkConnState (some h) : ConnState H)
        = (cs2.map (fun _ => GetOutcome.resolvedNow (some h)),
           mkConnState (some h)) := by
    intro cs2
    induction cs2 with
    | nil => simp [arriveAll]
    | cons c rest ih =>
        simp only [arriveAll, mkConnState, getCollectionArrive]
        rw [show (⟨CollectionState.initialized, some h, []⟩ : ConnState H)
              = mkConnState (some h) from rfl, ih]
        simp [mkConnState]
  refine ⟨rfl, key cs, ?_⟩
  rw [key cs]
  simp [List.countP_map, Function.comp, GetOutcome.isInitiated]

/-- The implicit invariant of C9. -/
def ConnInv (H : Type) (s : ConnState H) : Prop :=
  (s.collectionState = CollectionState.initialized → s.collection.isSome = true)
  ∧ (s.pending ≠ [] → s.collectionState = CollectionState.initializing)

/-- C9: both constructor variants establish `ConnInv`; every transition
(`getCollectionArrive`, `runAcquisition`) preserves it; and whenever
`collectionState = initialized`, `getCollection` resolves immediately with
the cached collection without modifying any state, that cached field being
`some` handle under the invariant.  In particular the pending queue is
non-empty only while the state is `initializing`. -/
theorem collection_state_invariant (H E : Type) (collectionOpt : Option H)
    (c : Nat) (s : ConnState H) (tti : Option Bool)
    (cr : Except E H) (ir : Except E Unit) :
    ConnInv H (mkConnState collectionOpt)
    ∧ (ConnInv H s → ConnInv H (getCollectionArrive c s).2)
    ∧ (ConnInv H s → ConnInv H (runAcquisition tti s cr ir).state)
    ∧ (s.collectionState = CollectionState.initialized →
        getCollectionArrive c s = (GetOutcome.resolvedNow s.collection, s)
        ∧ (ConnInv H s → s.collection.isSome = true)) := by
  refine ⟨?_, ?_, ?_, ?_⟩
  · cases collectionOpt <;> simp [ConnInv, mkConnState]
  · intro hi
    obtain ⟨cst, col, pend⟩ := s
    cases cst with
    | uninitialized =>
        exact ⟨fun hcontra => absurd hcontra (by simp [getCollectionArrive]),
               fun _ => rfl⟩
    | initializing =>
        exact ⟨fun hcontra => absurd hcontra (by simp [getCollectionArrive]),
               fun _ => rfl⟩
    | initialized => exact hi
  · intro hi
    obtain ⟨cst, col, pend⟩ := s
    cases cr with
    | error e => simp [ConnInv, runAcquisition]
    | ok hh =>
        simp only [runAcquisition]
        cases hI : (if tti.getD true then ir else Except.ok ()) with
        | error e2 => simp [ConnInv, hI]
        | ok u => simp [ConnInv, hI]
  · intro hinit
    obtain ⟨cst, col, pend⟩ := s
    cases hinit
    exact ⟨rfl, fun hi => hi.1 rfl⟩

/-- Witness for C9: the invariant after a queueing arrival. -/
theorem collection_state_invariant_witness :
    ConnInv Nat (getCollectionArrive 0
      (⟨CollectionState.initializing, none, [1]⟩ : ConnState Nat)).2 := by
  have hInv : ConnInv Nat (⟨CollectionState.initializing, none, [1]⟩ : ConnState Nat) :=
    ⟨fun hcontra => absurd hcontra (by decide), fun _ => rfl⟩
  exact (collection_state_invariant Nat Nat none 0
      ⟨CollectionState.initializing, none, [1]⟩ none (Except.ok 0)
      (Except.ok ())).2.1 hInv

/-! ## Theorems for the claims about `createCollection` options -/

theorem splitOnChar_ne_nil (c : Char) : ∀ l : List Char, splitOnChar c l ≠ [] := by
  intro l
  cases l with
  | nil => simp [splitOnChar]
  | cons x xs =>
      simp only [splitOnChar]
      by_cases hx : (x == c) = true
      · simp [hx]
      · simp only [hx, Bool.false_eq_true, if_false]
        cases splitOnChar c xs <;> simp

theorem splitOnChar_no_sep (c : Char) :
    ∀ l : List Char, l.all (fun ch => ch != c) = true → splitOnChar c l = [l] := by
  intro l
  induction l with
  | nil => intro _; rfl
  | cons x xs ih =>
      intro h
      rw [List.all_cons, Bool.and_eq_true] at h
      have hx : (x == c) = false := by
        cases hxc : (x == c) <;> simp_all
      simp only [splitOnChar, hx, Bool.false_eq_true, if_false, ih h.2]

theorem splitOnChar_append_sep (c : Char) :
    ∀ l1 l2 : List Char,
      splitOnChar c (l1 ++ c :: l2) = splitOnChar c l1 ++ splitOnChar c l2 := by
  intro l1 l2
  induction l1 with
  | nil => simp [splitOnChar]
  | cons x l1 ih =>
      simp only [List.cons_append, splitOnChar, List.append_eq]
      rw [ih]
      by_cases hx : (x == c) = true
      · simp [hx]
      · simp only [hx, Bool.false_eq_true, if_false]
        cases hs1 : splitOnChar c l1 with
        | nil => exact absurd hs1 (splitOnChar_ne_nil c l1)
        | cons y ys => simp [hs1]

/-- C10: because the default database name is a plain `split("/")` taking
the final element, a URI with no path segment after the authority derives
its default `authSource` from the `host:port` text: in general, whenever
the URI ends in `"/" ++ t` with `t` free of `/` and `?`, the derived name
is exactly `t` — for `"mongodb://host:27017"` that trailing token is
`"host:27017"`, not a database name, and it becomes the computed
`authSource`. -/
theorem default_authsource_trailing_token (s t : String)
    (h : t.data.all (fun ch => ch != '/' && ch != '?') = true) :
    dbNameOfUri (s ++ "/" ++ t) = t
    ∧ dbNameOfUri "mongodb://host:27017" = "host:27017"
    ∧ (computedConnectionOptions
        (StoreConnectionOptions.mk (some "mongodb://host:27017")
          none none none none)).authSource
      = some "host:27017" := by
  refine ⟨?_, by decide, by decide⟩
  have hslash : t.data.all (fun ch => ch != '/') = true := by
    rw [List.all_eq_true] at h ⊢
    intro x hx
    exact (Bool.and_eq_true ..|>.mp (h x hx)).1
  have hq : t.data.all (fun ch => ch != '?') = true := by
    rw [List.all_eq_true] at h ⊢
    intro x hx
    exact (Bool.and_eq_true ..|>.mp (h x hx)).2
  have hdata : (s ++ "/" ++ t).data = s.data ++ '/' :: t.data := by
    rw [String.data_append, String.data_append,
      show ("/" : String).data = ['/'] by decide]
    simp
  unfold dbNameOfUri
  rw [hdata, splitOnChar_append_sep, splitOnChar_no_sep _ _ hslash]
  simp only [List.getLastD_concat]
  rw [splitOnChar_no_sep _ _ hq]
  simp only [List.headD_cons]

/-- Witness for C10: the example URI decomposed around its last slash. -/
theorem default_authsource_trailing_token_witness :
    dbNameOfUri ("mongodb:/" ++ "/" ++ "host:27017") = "host:27017" := by
  exact (default_authsource_trailing_token "mongodb:/" "host:27017" (by decide)).1

/-- C7: the option bag handed to `MongoClient.connect` realises the
precedence chain.  `authSource` is: the caller's raw `connectionOptions`
value if present, else the explicit `authSource` option, else the default
derived from the URI's trailing path segment (query string stripped, as
`dbNameOfUri` does); `auth` is: the caller's raw `connectionOptions` value
if present, else `{username, password}` when a (truthy) username was
given, else absent. -/
theorem createCollection_option_precedence (opts : StoreConnectionOptions) :
    (createCollectionOptions opts).authSource
      = ((opts.connectionOptions.bind MongoClientOptions.authSource).or
          opts.authSource).or (opts.uri.map dbNameOfUri)
    ∧ (createCollectionOptions opts).auth
      = (opts.connectionOptions.bind MongoClientOptions.auth).or
          (match opts.user with
           | some u =>
               if u.isEmpty then none
               else some (MongoAuth.mk u opts.password)
           | none => none)
    ∧ dbNameOfUri "mongodb://h/mydb?retryWrites=true" = "mydb" := by
  obtain ⟨uri, user, pw, asrc, copts⟩ := opts
  refine ⟨?_, ?_, by decide⟩ <;>
    cases copts with
    | none =>
        cases asrc <;> cases user <;>
          simp [createCollectionOptions, computedConnectionOptions, Option.or]
    | some uo =>
        obtain ⟨uAs, uAuth⟩ := uo
        cases uAs <;> cases uAuth <;> cases asrc <;> cases user <;>
          simp [createCollectionOptions, computedConnectionOptions,
            mergeConnectionOptions, Option.or]

end RateLimitMongo
